import Mathlib

/-!
Shallow embedding of the asynchronous LLM dispatch pool
(`src/utils/async_llm_pool.py`, class `AsyncLLMPool`).

Conventions of the embedding:
* Python floats (wall-clock instants, durations, costs) are modelled as `ℚ`.
* The Python dict `self.cache` is modelled as an insertion-ordered association
  list with unique keys; `d[k] = v` updates in place when `k` is present and
  appends otherwise, `del d[k]` removes the binding, matching CPython dict
  semantics.
* Fallible code returns `Except String`; the error string names the Python
  exception that the corresponding line raises.
* Cooperative suspension (`await asyncio.sleep`) is modelled by returning the
  slept duration; the fingerprint `_get_cache_key` (an md5 of canonical JSON)
  is abstracted as an opaque key argument, since no claim depends on its
  internals.
-/

set_option maxRecDepth 4000

deriving instance DecidableEq for Except

namespace AsyncLLMPool

/-- The `LLMResponse` dataclass. -/
structure LLMResponse where
  content : String
  model : String
  tokens_used : Nat
  response_time : ℚ
  from_cache : Bool := false
  cost_estimate : ℚ := 0
  deriving DecidableEq

/-- The `LLMStats` dataclass (all counters start at zero). -/
structure LLMStats where
  total_requests : Nat := 0
  cache_hits : Nat := 0
  failures : Nat := 0
  total_tokens : Nat := 0
  total_cost : ℚ := 0
  avg_response_time : ℚ := 0
  deriving DecidableEq

/-- A cache entry: `(response, insertion timestamp)`. -/
abbrev CacheEntry := LLMResponse × ℚ

/-- The cache dict `self.cache`, as an insertion-ordered association list. -/
abbrev Cache := List (String × CacheEntry)

/-- Python dict assignment `d[k] = v`: update in place when `k` is bound
(keeping its position), otherwise append at the end. -/
def dictInsert (d : Cache) (k : String) (v : CacheEntry) : Cache :=
  if d.any (fun p => p.1 == k) then
    d.map (fun p => if p.1 == k then (k, v) else p)
  else d ++ [(k, v)]

/-- Python `del d[k]`: remove the (unique) binding of `k`. -/
def dictErase (d : Cache) (k : String) : Cache :=
  d.eraseP (fun p => p.1 == k)

/-- Python `k in d` / `d[k]`: the entry bound to `k`, if any. -/
def dictFind (d : Cache) (k : String) : Option CacheEntry :=
  (d.find? (fun p => p.1 == k)).map (fun p => p.2)

/-- Python `min(d.keys(), key=lambda k: d[k][1])`, as the whole minimal entry:
a left fold that replaces the current best only on a strictly smaller
timestamp, so the first key holding the minimal timestamp wins, exactly as
CPython `min` does; `none` on an empty dict, where `min` raises `ValueError`. -/
def minEntry : Cache → Option (String × CacheEntry)
  | [] => none
  | e :: es => some (es.foldl (fun best f => if f.2.2 < best.2.2 then f else best) e)

/-- The key of the oldest entry (see `minEntry`). -/
def oldestKey (d : Cache) : Option String :=
  (minEntry d).map (fun p => p.1)

/-- `_cache_response`: evict the entry with the minimal insertion timestamp when
the store is at (or beyond) capacity, then store `(response, now)`. With
`cache_size = 0` and an empty store this is the `ValueError` that CPython
`min` raises on an empty sequence. -/
def cacheResponse (cache_size : Nat) (c : Cache) (key : String)
    (response : LLMResponse) (now : ℚ) : Except String Cache :=
  if cache_size ≤ c.length then
    match oldestKey c with
    | none => Except.error "ValueError: min arg is an empty sequence"
    | some k0 => Except.ok (dictInsert (dictErase c k0) key (response, now))
  else
    Except.ok (dictInsert c key (response, now))

/-- The cache-level part of `_get_cached_response`: a fresh entry is returned
as a field-by-field copy with `from_cache = True`; an expired entry is deleted
and treated as absent. -/
def lookupCache (cache_ttl : ℚ) (c : Cache) (key : String) (now : ℚ) :
    Option LLMResponse × Cache :=
  match dictFind c key with
  | some (response, timestamp) =>
    if now - timestamp < cache_ttl then
      (some { content := response.content, model := response.model,
              tokens_used := response.tokens_used,
              response_time := response.response_time,
              from_cache := true,
              cost_estimate := response.cost_estimate }, c)
    else
      (none, dictErase c key)
  | none => (none, c)

/-- The pool state: configuration fields, the cache dict, the rate window
`self.request_times`, the statistics record, and the initial value of
`self.rate_semaphore` (the capacity `asyncio.Semaphore(rate_limit)` was
constructed with). -/
structure PoolState where
  max_connections : Nat
  cache_size : Nat
  cache_ttl : ℚ
  rate_limit : Int
  max_retries : Nat
  rate_semaphore : Int
  cache : Cache := []
  request_times : List ℚ := []
  stats : LLMStats := {}
  deriving DecidableEq

/-- `__init__`: stores the configuration unvalidated and builds
`asyncio.Semaphore(rate_limit)`. CPython `asyncio.Semaphore` raises
`ValueError` when its initial value is negative; nothing else in the
constructor can fail. -/
def init (max_connections cache_size : Nat) (cache_ttl : ℚ) (rate_limit : Int)
    (max_retries : Nat) : Except String PoolState :=
  if rate_limit < 0 then
    Except.error "ValueError: Semaphore initial value must be >= 0"
  else
    Except.ok
      { max_connections := max_connections
        cache_size := cache_size
        cache_ttl := cache_ttl
        rate_limit := rate_limit
        max_retries := max_retries
        rate_semaphore := rate_limit
        cache := []
        request_times := []
        stats := {} }

/-- `_get_cached_response` on the pool state: cache-level lookup plus the
`self.stats.cache_hits += 1` performed on a hit. -/
def getCachedResponse (st : PoolState) (now : ℚ) (key : String) :
    Option LLMResponse × PoolState :=
  match lookupCache st.cache_ttl st.cache key now with
  | (some cached, c2) =>
    (some cached,
     { st with cache := c2,
               stats := { st.stats with cache_hits := st.stats.cache_hits + 1 } })
  | (none, c2) => (none, { st with cache := c2 })

/-- The pruning step of `_wait_for_rate_limit`: keep timestamps strictly
younger than 60 seconds. -/
def pruneWindow (request_times : List ℚ) (now : ℚ) : List ℚ :=
  request_times.filter (fun t => decide (now - t < 60))

/-- `_wait_for_rate_limit`: prune, then if the window is at least as long as
the rate limit sleep for `60 - (now - request_times[0])` when that is
positive, then append the `now` captured at entry (the pre-sleep instant —
the source reuses the same local variable). Returns the slept duration and
the new window. Indexing `request_times[0]` on an empty window (only
reachable when `rate_limit ≤ 0`) is CPython `IndexError`. -/
def waitForRateLimit (rate_limit : Int) (request_times : List ℚ) (now : ℚ) :
    Except String (ℚ × List ℚ) :=
  let pruned := pruneWindow request_times now
  if rate_limit ≤ (pruned.length : Int) then
    match pruned with
    | [] => Except.error "IndexError: list index out of range"
    | t0 :: rest =>
      let sleep_time := 60 - (now - t0)
      let slept := if 0 < sleep_time then sleep_time else 0
      Except.ok (slept, (t0 :: rest) ++ [now])
  else
    Except.ok (0, pruned ++ [now])

/-- Modelled from the spec: the admission step as §4.3 words it, identical to
`waitForRateLimit` except that the timestamp recorded after waking is the
post-sleep current time (`now + slept`), not the `now` captured at entry. -/
def waitForRateLimitSpecd (rate_limit : Int) (request_times : List ℚ)
    (now : ℚ) : Except String (ℚ × List ℚ) :=
  let pruned := pruneWindow request_times now
  if rate_limit ≤ (pruned.length : Int) then
    match pruned with
    | [] => Except.error "IndexError: list index out of range"
    | t0 :: rest =>
      let sleep_time := 60 - (now - t0)
      let slept := if 0 < sleep_time then sleep_time else 0
      Except.ok (slept, (t0 :: rest) ++ [now + slept])
  else
    Except.ok (0, pruned ++ [now])

/-- The `self.model_config` pricing table (`cost_per_1k` column). -/
def costPer1k (model : String) : Option ℚ :=
  if model = "gpt-4o" then some (5 / 1000)
  else if model = "gpt-4o-mini" then some (15 / 10000)
  else if model = "gpt-3.5-turbo" then some (1 / 1000)
  else none

/-- `_calculate_cost`: `(tokens / 1000) * cost_per_1k` for known models,
`0.0` otherwise. -/
def calculateCost (model : String) (tokens : Nat) : ℚ :=
  match costPer1k model with
  | some c => ((tokens : ℚ) / 1000) * c
  | none => 0

/-- `_update_stats`: always bumps `total_requests`; on success adds tokens and
cost and, for non-cached responses, applies the running-average step with
denominator `total_requests - cache_hits` (a Python `int`, hence `Int` here:
it can be non-positive, in which case the average is left untouched). -/
def updateStats (stats : LLMStats) (response : LLMResponse) (success : Bool) :
    LLMStats :=
  let s1 := { stats with total_requests := stats.total_requests + 1 }
  if success then
    let s2 := { s1 with total_tokens := s1.total_tokens + response.tokens_used,
                        total_cost := s1.total_cost + response.cost_estimate }
    if response.from_cache = false then
      let total_non_cached : Int := (s2.total_requests : Int) - (s2.cache_hits : Int)
      if 0 < total_non_cached then
        { s2 with avg_response_time :=
            (s2.avg_response_time * ((total_non_cached : ℚ) - 1) +
              response.response_time) / (total_non_cached : ℚ) }
      else s2
    else s2
  else s1

/-- Result of one run of the retry loop: the final outcome (`ok` data from
`_make_llm_request`, or the last exception re-raised), the number of times
the attempt body ran, and the backoff sleeps performed between attempts. -/
structure RetryOut where
  outcome : Except String (String × Nat)
  calls : Nat
  sleeps : List ℚ
  deriving DecidableEq

/-- The `for attempt in range(self.max_retries)` loop of `call_llm_async`.
`attempts i` is the outcome of the i-th `_make_llm_request` call (content and
token count, or the exception it raised); `jitter i` models `time.time() % 1`
at the i-th backoff. Recursion is on the number of remaining iterations; the
zero case is the loop falling through, where the source re-raises
`last_error` (raising `None` when the loop never ran, i.e. `max_retries = 0`).
The backoff `(2 ** attempt) + jitter` runs only when `attempt + 1 <
max_retries` (the source writes `attempt < self.max_retries - 1` over Python
ints, which is the same condition). -/
def retryLoop (attempts : Nat → Except String (String × Nat))
    (jitter : Nat → ℚ) (max_retries : Nat) :
    Nat → Nat → Option String → RetryOut
  | _, 0, last_error =>
    { outcome := Except.error
        (last_error.getD "TypeError: exceptions must derive from BaseException"),
      calls := 0, sleeps := [] }
  | idx, remaining + 1, _ =>
    match attempts idx with
    | Except.ok data => { outcome := Except.ok data, calls := 1, sleeps := [] }
    | Except.error e =>
      let rest := retryLoop attempts jitter max_retries (idx + 1) remaining (some e)
      { outcome := rest.outcome,
        calls := rest.calls + 1,
        sleeps := (if idx + 1 < max_retries then [2 ^ idx + jitter idx] else [])
                    ++ rest.sleeps }

/-- Observable outcome of one `call_llm_async` invocation: result and updated
state, whether `_wait_for_rate_limit` ran, whether (and at what capacity) the
semaphore guarding the network attempt was acquired, how many attempts ran,
and the backoff sleeps. -/
structure CallResult where
  result : Except String LLMResponse
  state : PoolState
  rate_waited : Bool
  sem_acquired : Bool
  sem_capacity : Option Int
  attempts_made : Nat
  backoff_sleeps : List ℚ
  deriving DecidableEq

/-- `call_llm_async`, with the md5 fingerprint abstracted as `cache_key`, the
network call as `attempts`, the measured `time.time() - start_time` of the
successful attempt as `response_time`, and `time.time() % 1` as `jitter`.
Control flow mirrors the source: cache check (hit returns before the rate
limiter and the semaphore); `_wait_for_rate_limit`; `async with
self.rate_semaphore`; the retry loop; on success `_cache_response` then
`_update_stats(success=True)` then return; on exhausted retries
`self.stats.failures += 1` and re-raise. The `cacheResponse` error branch is
reachable only when `cache_size = 0` (the source would catch that exception
inside the retry loop; every theorem below assumes `1 ≤ cache_size`, where
the branch is dead). -/
def callLLMAsync (st : PoolState) (now : ℚ) (cache_key : String)
    (model : String) (attempts : Nat → Except String (String × Nat))
    (response_time : ℚ) (jitter : Nat → ℚ) : CallResult :=
  match getCachedResponse st now cache_key with
  | (some cached, st1) =>
    { result := Except.ok cached, state := st1, rate_waited := false,
      sem_acquired := false, sem_capacity := none, attempts_made := 0,
      backoff_sleeps := [] }
  | (none, st1) =>
    match waitForRateLimit st1.rate_limit st1.request_times now with
    | Except.error e =>
      { result := Except.error e, state := st1, rate_waited := true,
        sem_acquired := false, sem_capacity := none, attempts_made := 0,
        backoff_sleeps := [] }
    | Except.ok (_, new_times) =>
      let st2 := { st1 with request_times := new_times }
      let r := retryLoop attempts jitter st2.max_retries 0 st2.max_retries none
      match r.outcome with
      | Except.ok (content, tokens) =>
        let cost := calculateCost model tokens
        let resp : LLMResponse :=
          { content := content, model := model, tokens_used := tokens,
            response_time := response_time, from_cache := false,
            cost_estimate := cost }
        match cacheResponse st2.cache_size st2.cache cache_key resp now with
        | Except.error e =>
          { result := Except.error e, state := st2, rate_waited := true,
            sem_acquired := true, sem_capacity := some st2.rate_semaphore,
            attempts_made := r.calls, backoff_sleeps := r.sleeps }
        | Except.ok new_cache =>
          let st3 := { st2 with cache := new_cache,
                                stats := updateStats st2.stats resp true }
          { result := Except.ok resp, state := st3, rate_waited := true,
            sem_acquired := true, sem_capacity := some st2.rate_semaphore,
            attempts_made := r.calls, backoff_sleeps := r.sleeps }
      | Except.error e =>
        let st3 := { st2 with
          stats := { st2.stats with failures := st2.stats.failures + 1 } }
        { result := Except.error e, state := st3, rate_waited := true,
          sem_acquired := true, sem_capacity := some st2.rate_semaphore,
          attempts_made := r.calls, backoff_sleeps := r.sleeps }

/-- The degraded placeholder that `batch_call_llm_async` substitutes for a
failed element. -/
def degradedPlaceholder (model : String) (e : String) : LLMResponse :=
  { content := "处理失败: " ++ e, model := model, tokens_used := 0,
    response_time := 0, from_cache := false, cost_estimate := 0 }

/-- `batch_call_llm_async`: `asyncio.gather(..., return_exceptions=True)`
returns results index-aligned with its argument list regardless of completion
order; `dispatch i p` abstracts the awaited outcome of `call_llm_async` for
prompt `p` at index `i` (a response, or the exception `gather` captured).
Each captured exception is replaced by the degraded placeholder. -/
def batchCallLLMAsync (dispatch : Nat → String → Except String LLMResponse)
    (prompts : List String) (model : String) : List LLMResponse :=
  if prompts.isEmpty then []
  else
    prompts.enum.map (fun ip =>
      match dispatch ip.1 ip.2 with
      | Except.ok resp => resp
      | Except.error e => degradedPlaceholder model e)

/-- `clear_cache`. -/
def clearCache (st : PoolState) : PoolState := { st with cache := [] }

/-- `get_cache_size`: `len(self.cache)`, counting every stored entry, expired
or not. -/
def getCacheSize (st : PoolState) : Nat := st.cache.length

/-- One operation on the cache dict, tagged with the wall-clock instant at
which it runs. -/
inductive CacheOp where
  | insert (key : String) (response : LLMResponse) (now : ℚ)
  | lookup (key : String) (now : ℚ)
  | clear
  deriving DecidableEq

/-- Run one cache operation. A raising `insert` (possible only when
`cache_size = 0`) leaves the dict as it was. -/
def runCacheOp (cache_size : Nat) (cache_ttl : ℚ) (c : Cache) :
    CacheOp → Cache
  | CacheOp.insert key response now =>
    match cacheResponse cache_size c key response now with
    | Except.ok c2 => c2
    | Except.error _ => c
  | CacheOp.lookup key now => (lookupCache cache_ttl c key now).2
  | CacheOp.clear => []

/-- Run a sequence of cache operations. -/
def runCacheOps (cache_size : Nat) (cache_ttl : ℚ) (c : Cache)
    (ops : List CacheOp) : Cache :=
  ops.foldl (runCacheOp cache_size cache_ttl) c

/-- The insert-only operation sequence that stores each of `items` in turn. -/
def insertOps (items : List (String × CacheEntry)) : List CacheOp :=
  items.map (fun e => CacheOp.insert e.1 e.2.1 e.2.2)

/-! ### Concrete fixtures used by the closed theorems below -/

/-- The pool state `AsyncLLMPool()` builds with its default configuration
(`max_connections=20, cache_size=1000, cache_ttl=3600, rate_limit=60,
max_retries=3`). -/
def pool0 : PoolState :=
  { max_connections := 20, cache_size := 1000, cache_ttl := 3600,
    rate_limit := 60, max_retries := 3, rate_semaphore := 60,
    cache := [], request_times := [], stats := {} }

/-- An attempt oracle that always succeeds with content "hello", 10 tokens. -/
def okAttempts : Nat → Except String (String × Nat) :=
  fun _ => Except.ok ("hello", 10)

/-- An attempt oracle that always raises. -/
def failAttempts : Nat → Except String (String × Nat) :=
  fun _ => Except.error "boom"

/-- Zero jitter oracle. -/
def zeroJitter : Nat → ℚ := fun _ => 0

/-- First call of the §8 concrete scenario: a live call for key "A". -/
def callA1 : CallResult :=
  callLLMAsync pool0 0 "A" "gpt-4o-mini" okAttempts 1 zeroJitter

/-- Second call of the scenario: the same key "A" again, one second later. -/
def callA2 : CallResult :=
  callLLMAsync callA1.state 1 "A" "gpt-4o-mini" okAttempts 1 zeroJitter

/-- Third call: a fresh key "B", with measured response time 3. -/
def callB3 : CallResult :=
  callLLMAsync callA2.state 1 "B" "gpt-4o-mini" okAttempts 3 zeroJitter

/-- A dispatch oracle for the batch fixture: index 1 fails, others succeed. -/
def batchDispatch0 : Nat → String → Except String LLMResponse :=
  fun i _ =>
    if i = 1 then Except.error "boom"
    else Except.ok { content := "hello", model := "gpt-4o-mini",
                     tokens_used := 10, response_time := 1,
                     from_cache := false, cost_estimate := 0 }

/-- Two distinct responses used by the cache fixtures. -/
def respX : LLMResponse :=
  { content := "x", model := "m", tokens_used := 1, response_time := 1,
    from_cache := false, cost_estimate := 0 }

/-- Second fixture response. -/
def respY : LLMResponse :=
  { content := "y", model := "m", tokens_used := 2, response_time := 2,
    from_cache := false, cost_estimate := 0 }

/-- A two-entry cache at capacity 2, both entries long expired at time 100
under TTL 5. -/
def cacheFix : Cache := [("x", (respX, 0)), ("y", (respY, 1))]

/-- Capacity-3 eviction fixture: four distinct keys inserted at increasing
times. -/
def itemsFix : List (String × CacheEntry) :=
  [("a", (respX, 0)), ("b", (respX, 1)), ("c", (respX, 2)), ("d", (respX, 3))]

/-! ### Helper lemmas -/

/-- A key absent from the cache makes `_get_cached_response` a no-op returning
`None`. -/
theorem getCachedResponse_miss (st : PoolState) (now : ℚ) (key : String)
    (hmiss : dictFind st.cache key = none) :
    getCachedResponse st now key = (none, st) := by
  unfold getCachedResponse lookupCache
  rw [hmiss]

/-- `_get_cached_response` never touches the semaphore stored at
construction. -/
theorem getCachedResponse_sem (st : PoolState) (now : ℚ) (key : String) :
    ((getCachedResponse st now key).2).rate_semaphore = st.rate_semaphore := by
  unfold getCachedResponse
  split <;> rfl

/-- Characterization of `_wait_for_rate_limit` for a positive rate limit: it
never raises, the recorded window is the pruned window with the entry-time
`now` appended, the slept duration is nonnegative, it is zero below the
limit, and at the limit it equals `60 - (now - oldest)`, which is strictly
positive because the oldest surviving timestamp is younger than 60 seconds. -/
theorem waitForRateLimit_char (rate_limit : Int) (ts : List ℚ) (now : ℚ)
    (h : 1 ≤ rate_limit) :
    ∃ slept, waitForRateLimit rate_limit ts now =
        Except.ok (slept, pruneWindow ts now ++ [now]) ∧
      0 ≤ slept ∧
      (((pruneWindow ts now).length : Int) < rate_limit → slept = 0) ∧
      (∀ t0 rest, pruneWindow ts now = t0 :: rest →
        rate_limit ≤ ((t0 :: rest).length : Int) →
        slept = 60 - (now - t0) ∧ 0 < slept) := by
  by_cases hlen : rate_limit ≤ ((pruneWindow ts now).length : Int)
  · have hsplit : pruneWindow ts now = [] ∨
        ∃ t0 rest, pruneWindow ts now = t0 :: rest := by
      cases pruneWindow ts now with
      | nil => exact Or.inl rfl
      | cons a l => exact Or.inr ⟨a, l, rfl⟩
    rcases hsplit with hp | ⟨t0, rest, hp⟩
    · exfalso
      rw [hp] at hlen
      simp at hlen
      omega
    · rw [hp] at hlen
      have ht0 : now - t0 < 60 := by
        have hmem : t0 ∈ pruneWindow ts now := by
          rw [hp]; exact List.mem_cons_self t0 rest
        have := List.mem_filter.mp hmem
        exact of_decide_eq_true this.2
      have hpos : (0 : ℚ) < 60 - (now - t0) := by linarith
      refine ⟨60 - (now - t0), ?_, by linarith, ?_, ?_⟩
      · unfold waitForRateLimit
        rw [hp, if_pos hlen]
        dsimp only
        rw [if_pos hpos]
      · intro hlt
        rw [hp] at hlt
        exact absurd hlen (not_le.mpr hlt)
      · intro t0' rest' hp' _
        rw [hp] at hp'
        injection hp' with h1 _
        subst h1
        exact ⟨rfl, hpos⟩
  · refine ⟨0, ?_, le_refl 0, fun _ => rfl, ?_⟩
    · unfold waitForRateLimit
      rw [if_neg hlen]
    · intro t0 rest hp hlen2
      rw [hp] at hlen
      exact absurd hlen2 hlen

/-- The retry loop of `call_llm_async` under an attempt oracle that always
raises: it runs the body once per remaining iteration, backs off after every
attempt but the last, and ends with the error of the final attempt. -/
theorem retryLoop_allFail (attempts : Nat → Except String (String × Nat))
    (jitter : Nat → ℚ) (max_retries : Nat) (err : Nat → String)
    (hfail : ∀ i, attempts i = Except.error (err i)) :
    ∀ (remaining idx : Nat) (last_error : Option String),
      1 ≤ remaining → idx + remaining = max_retries →
      retryLoop attempts jitter max_retries idx remaining last_error =
        { outcome := Except.error (err (max_retries - 1)),
          calls := remaining,
          sleeps := (List.range' idx (remaining - 1)).map
            (fun i => 2 ^ i + jitter i) } := by
  intro remaining
  induction remaining with
  | zero => intro idx le h1 h2; omega
  | succ r ih =>
    intro idx le h1 h2
    cases r with
    | zero =>
      have hnot : ¬ (idx + 1 < max_retries) := by omega
      have hidx : max_retries - 1 = idx := by omega
      simp [retryLoop, hfail idx, if_neg hnot, hidx]
    | succ r' =>
      have hlt : idx + 1 < max_retries := by omega
      have hrest := ih (idx + 1) (some (err idx)) (by omega) (by omega)
      conv_lhs => rw [retryLoop]
      rw [hfail idx]
      dsimp only
      rw [hrest, if_pos hlt]
      simp [List.range'_succ, Nat.add_sub_cancel]

/-! ### Claim theorems -/

/-- C1 (status: code_bug). The spec claims a cache hit records both
`cacheHits` and `totalRequests` and touches neither the rate window nor the
concurrency semaphore. On the concrete §8 scenario (live call for key "A",
then the same key again one second later) the code returns the cached
response with `from_cache = true`, leaves the rate window and the semaphore
untouched, and bumps `cache_hits` to 1 — but `total_requests` stays at 1
instead of the claimed 2: the cache-hit fast path returns before
`_update_stats` ever runs. -/
theorem cache_hit_skips_total_requests :
    init 20 1000 3600 60 3 = Except.ok pool0 ∧
    callA1.state.stats.total_requests = 1 ∧
    callA1.state.stats.cache_hits = 0 ∧
    callA2.result = Except.ok
      { content := "hello", model := "gpt-4o-mini", tokens_used := 10,
        response_time := 1, from_cache := true, cost_estimate := 3 / 200000 } ∧
    callA2.rate_waited = false ∧
    callA2.sem_acquired = false ∧
    callA2.state.request_times = callA1.state.request_times ∧
    callA2.state.stats.cache_hits = 1 ∧
    callA2.state.stats.total_requests = 1 := by
  refine ⟨?_, ?_, ?_, ?_, ?_, ?_, ?_, ?_, ?_⟩ <;> with_unfolding_all exact rfl

/-- C3 (status: code_bug). The spec claims a terminal failure increments both
the failure counter and the total-requests counter. An always-raising attempt
oracle against the default pool exhausts its 3 retries, never caches
anything, bumps `failures` to 1 — but leaves `total_requests` at 0: the
terminal-failure path runs `self.stats.failures += 1` directly and never
calls `_update_stats`. -/
theorem terminal_failure_skips_total_requests :
    (callLLMAsync pool0 0 "A" "m" failAttempts 1 zeroJitter).result =
      Except.error "boom" ∧
    (callLLMAsync pool0 0 "A" "m" failAttempts 1 zeroJitter).attempts_made = 3 ∧
    (callLLMAsync pool0 0 "A" "m" failAttempts 1 zeroJitter).state.cache = [] ∧
    (callLLMAsync pool0 0 "A" "m" failAttempts 1 zeroJitter).state.stats.failures
      = 1 ∧
    (callLLMAsync pool0 0 "A" "m" failAttempts 1 zeroJitter).state.stats.total_requests
      = 0 := by
  refine ⟨?_, ?_, ?_, ?_, ?_⟩ <;> with_unfolding_all exact rfl

/-- C5 (status: code_bug). The spec claims the running average equals the
arithmetic mean of the non-cached success latencies even when cache hits are
interleaved. Concretely: a non-cached success with latency 1, then a cache
hit, then a non-cached success with latency 3. The mean of the two live
latencies is 2, but the code computes the online-update denominator as
`total_requests - cache_hits = 2 - 1 = 1` (the cache hit inflated
`cache_hits` without touching `total_requests`), so the average lands on 3. -/
theorem avg_response_time_skewed_by_cache_hits :
    callB3.state.stats.total_requests = 2 ∧
    callB3.state.stats.cache_hits = 1 ∧
    callB3.state.stats.avg_response_time = 3 ∧
    ((1 : ℚ) + 3) / 2 = 2 ∧
    (3 : ℚ) ≠ ((1 : ℚ) + 3) / 2 := by
  refine ⟨?_, ?_, ?_, ?_, ?_⟩
  · with_unfolding_all exact rfl
  · with_unfolding_all exact rfl
  · with_unfolding_all exact rfl
  · norm_num
  · norm_num

/-- C2 counterexample. The semaphore guarding the network attempt was built
as `asyncio.Semaphore(rate_limit)`: under the default configuration
(`max_connections = 20`, `rate_limit = 60`) a cache-missing call acquires a
semaphore of capacity 60, not 20. -/
theorem sem_capacity_ne_max_connections :
    (callLLMAsync pool0 0 "A" "m" okAttempts 1 zeroJitter).sem_acquired = true ∧
    (callLLMAsync pool0 0 "A" "m" okAttempts 1 zeroJitter).sem_capacity =
      some 60 ∧
    pool0.max_connections = 20 ∧
    (callLLMAsync pool0 0 "A" "m" okAttempts 1 zeroJitter).sem_capacity ≠
      some (pool0.max_connections : Int) := by
  have hcap : (callLLMAsync pool0 0 "A" "m" okAttempts 1 zeroJitter).sem_capacity
      = some 60 := by with_unfolding_all exact rfl
  refine ⟨?_, hcap, rfl, ?_⟩
  · with_unfolding_all exact rfl
  · rw [hcap]; decide

/-- C2 (status: corrected). The semaphore acquired after rate-limiter
admission has capacity `rate_limit`, not `max_connections`: construction
stores `Semaphore(rate_limit)`, and every call that reaches the semaphore
acquires that capacity, whatever `max_connections` is. -/
theorem sem_capacity_eq_rate_limit (max_connections cache_size : Nat)
    (cache_ttl : ℚ) (rate_limit : Int) (max_retries : Nat) (st : PoolState)
    (hinit : init max_connections cache_size cache_ttl rate_limit max_retries =
      Except.ok st) :
    st.rate_semaphore = rate_limit ∧
    st.max_connections = max_connections ∧
    ∀ now key model attempts response_time jitter,
      (callLLMAsync st now key model attempts response_time jitter).sem_acquired
        = true →
      (callLLMAsync st now key model attempts response_time jitter).sem_capacity
        = some rate_limit := by
  unfold init at hinit
  split at hinit
  · exact absurd hinit (by simp)
  · rw [Except.ok.injEq] at hinit
    subst hinit
    refine ⟨rfl, rfl, ?_⟩
    intro now key model attempts response_time jitter
    unfold callLLMAsync
    split
    · intro hfalse; exact absurd hfalse (by simp)
    · rename_i x st1 heq
      have hsem : st1.rate_semaphore = rate_limit := by
        have h2 := congrArg
          (fun q : Option LLMResponse × PoolState => q.2.rate_semaphore) heq
        dsimp only at h2
        rw [getCachedResponse_sem] at h2
        exact h2.symm
      split
      · intro hfalse; exact absurd hfalse (by simp)
      · rename_i y slept new_times heq2
        intro _
        dsimp only
        split
        · split <;> simp [hsem]
        · simp [hsem]

/-- C2 witness: the amended statement applied to the default configuration. -/
theorem sem_capacity_eq_rate_limit_witness :
    pool0.rate_semaphore = 60 ∧
    (callLLMAsync pool0 0 "A" "m" okAttempts 1 zeroJitter).sem_capacity =
      some 60 := by
  have h := sem_capacity_eq_rate_limit 20 1000 3600 60 3 pool0 (by decide)
  exact ⟨h.1, h.2.2 0 "A" "m" okAttempts 1 zeroJitter (by decide)⟩

/-- C4 counterexample. With limit 1, window `[0]` and `now = 30`, the code
sleeps 30 seconds and then records the stale pre-sleep instant 30, while the
claimed algorithm (`waitForRateLimitSpecd`) records the post-sleep instant
60; the two disagree. -/
theorem rate_window_records_presleep_now :
    waitForRateLimit 1 [0] 30 = Except.ok (30, [0, 30]) ∧
    waitForRateLimitSpecd 1 [0] 30 = Except.ok (30, [0, 60]) ∧
    waitForRateLimit 1 [0] 30 ≠ waitForRateLimitSpecd 1 [0] 30 := by
  have h1 : waitForRateLimit 1 [0] 30 = Except.ok (30, [0, 30]) := by
    with_unfolding_all exact rfl
  have h2 : waitForRateLimitSpecd 1 [0] 30 = Except.ok (30, [0, 60]) := by
    with_unfolding_all exact rfl
  refine ⟨h1, h2, ?_⟩
  rw [h1, h2]
  intro h
  have h3 := Prod.mk.injEq .. ▸ (Except.ok.injEq .. ▸ h)
  have h4 : ([0, 30] : List ℚ) = [0, 60] := ((Prod.mk.inj (Except.ok.inj h))).2
  have h5 : (30 : ℚ) = 60 := (List.cons.inj ((List.cons.inj h4).2)).1
  norm_num at h5

/-- C4 (status: corrected). For every admission with a positive configured
limit: timestamps older than 60 seconds are pruned before the length check;
when the pruned window has reached the limit the caller sleeps
`60 - (now - oldest)`, which is strictly positive (so never negative); below
the limit nothing is slept; and the timestamp then appended to the window is
the `now` captured at entry — the pre-sleep instant, not the post-sleep
current time the spec describes. -/
theorem waitForRateLimit_algorithm (rate_limit : Int) (ts : List ℚ) (now : ℚ)
    (h : 1 ≤ rate_limit) :
    ∃ slept, waitForRateLimit rate_limit ts now =
        Except.ok (slept, pruneWindow ts now ++ [now]) ∧
      0 ≤ slept ∧
      (((pruneWindow ts now).length : Int) < rate_limit → slept = 0) ∧
      (∀ t0 rest, pruneWindow ts now = t0 :: rest →
        rate_limit ≤ ((t0 :: rest).length : Int) →
        slept = 60 - (now - t0) ∧ 0 < slept) :=
  waitForRateLimit_char rate_limit ts now h

/-- C4 witness: the amended admission algorithm at limit 1, window `[0]`,
`now = 30`. -/
theorem waitForRateLimit_algorithm_witness :
    (1 : Int) ≤ 1 ∧
    ∃ slept, waitForRateLimit 1 [0] 30 =
        Except.ok (slept, pruneWindow [0] 30 ++ [30]) ∧
      0 ≤ slept ∧
      (((pruneWindow [0] 30).length : Int) < 1 → slept = 0) ∧
      (∀ t0 rest, pruneWindow [0] 30 = t0 :: rest →
        (1 : Int) ≤ ((t0 :: rest).length : Int) →
        slept = 60 - (30 - t0) ∧ 0 < slept) :=
  ⟨by decide, waitForRateLimit_algorithm 1 [0] 30 (by decide)⟩

/-- C9 counterexample. Constructing the pool with `rate_limit = 0` does not
raise: `__init__` performs no validation and `asyncio.Semaphore(0)` is legal,
so construction succeeds. -/
theorem init_accepts_zero_rate_limit :
    (init 20 1000 3600 0 3).isOk = true ∧
    init 20 1000 3600 0 3 = Except.ok
      { max_connections := 20, cache_size := 1000, cache_ttl := 3600,
        rate_limit := 0, max_retries := 3, rate_semaphore := 0,
        cache := [], request_times := [], stats := {} } := by
  refine ⟨?_, ?_⟩ <;> with_unfolding_all exact rfl

/-- C9 (status: corrected). Construction fails fast only for a negative rate
limit (the `ValueError` raised by `asyncio.Semaphore` inside `__init__`,
before any call is dispatched); a rate limit of zero — a configuration error
per the spec — is accepted silently and construction succeeds. -/
theorem init_ok_iff_rate_limit_nonneg (max_connections cache_size : Nat)
    (cache_ttl : ℚ) (rate_limit : Int) (max_retries : Nat) :
    ((init max_connections cache_size cache_ttl rate_limit max_retries).isOk
        = true ↔ 0 ≤ rate_limit) ∧
    (rate_limit < 0 →
      init max_connections cache_size cache_ttl rate_limit max_retries =
        Except.error "ValueError: Semaphore initial value must be >= 0") := by
  unfold init
  constructor
  · split
    · rename_i hneg
      simp only [Except.isOk]
      constructor
      · intro h; cases h
      · intro h; exact absurd h (not_le.mpr hneg)
    · rename_i hnneg
      simp only [Except.isOk]
      constructor
      · intro _; omega
      · intro _; rfl
  · intro hneg
    rw [if_pos hneg]

/-- C9 witness: the amended construction contract applied at a negative and
at a positive limit. -/
theorem init_ok_iff_rate_limit_nonneg_witness :
    ((init 20 1000 3600 (-5) 3).isOk = true ↔ 0 ≤ (-5 : Int)) ∧
    ((init 20 1000 3600 60 3).isOk = true ↔ 0 ≤ (60 : Int)) :=
  ⟨(init_ok_iff_rate_limit_nonneg 20 1000 3600 (-5) 3).1,
   (init_ok_iff_rate_limit_nonneg 20 1000 3600 60 3).1⟩

/-- C6 (status: confirmed). For every attempt function that always raises and
every configuration with `max_retries ≥ 1` (and a positive rate limit so the
call reaches the retry loop), a cache-missing call runs the attempt body
exactly `max_retries` times, re-raises the exception of the final attempt,
and sleeps `2 ^ attempt_index + jitter` between consecutive attempts but not
after the last; with `jitter` in `[0, 1)` each backoff lies in
`[2 ^ i, 2 ^ i + 1)`. -/
theorem retry_exhaustion (st : PoolState) (now : ℚ) (key model : String)
    (attempts : Nat → Except String (String × Nat)) (response_time : ℚ)
    (jitter : Nat → ℚ) (err : Nat → String)
    (hmr : 1 ≤ st.max_retries) (hrl : 1 ≤ st.rate_limit)
    (hmiss : dictFind st.cache key = none)
    (hfail : ∀ i, attempts i = Except.error (err i))
    (hjit : ∀ i, 0 ≤ jitter i ∧ jitter i < 1) :
    (callLLMAsync st now key model attempts response_time jitter).attempts_made
        = st.max_retries ∧
    (callLLMAsync st now key model attempts response_time jitter).result
        = Except.error (err (st.max_retries - 1)) ∧
    (callLLMAsync st now key model attempts response_time jitter).backoff_sleeps
        = (List.range (st.max_retries - 1)).map (fun i => 2 ^ i + jitter i) ∧
    (∀ i, i + 1 < st.max_retries →
      2 ^ i ≤ 2 ^ i + jitter i ∧ 2 ^ i + jitter i < 2 ^ i + 1) := by
  obtain ⟨slept, hw, -, -, -⟩ :=
    waitForRateLimit_char st.rate_limit st.request_times now hrl
  have hloop := retryLoop_allFail attempts jitter st.max_retries err hfail
    st.max_retries 0 none hmr (by omega)
  unfold callLLMAsync
  rw [getCachedResponse_miss st now key hmiss]
  dsimp only
  rw [hw]
  dsimp only
  rw [hloop]
  dsimp only
  refine ⟨rfl, rfl, ?_, ?_⟩
  · rw [List.range_eq_range']
  · intro i hi
    have h := hjit i
    exact ⟨by linarith [h.1], by linarith [h.2]⟩

/-- C6 witness: the default pool, an always-raising attempt oracle, zero
jitter. -/
theorem retry_exhaustion_witness :
    1 ≤ pool0.max_retries ∧
    (callLLMAsync pool0 0 "A" "m" failAttempts 1 zeroJitter).attempts_made
      = pool0.max_retries ∧
    (callLLMAsync pool0 0 "A" "m" failAttempts 1 zeroJitter).result
      = Except.error "boom" := by
  have h := retry_exhaustion pool0 0 "A" "m" failAttempts 1 zeroJitter
    (fun _ => "boom") (by decide) (by decide) rfl (fun _ => rfl)
    (fun _ => ⟨le_refl 0, by norm_num [zeroJitter]⟩)
  exact ⟨by decide, h.1, h.2.1⟩

/-- C7 (status: confirmed). The batch call returns one response per prompt,
index-aligned: position `i` holds the response of `dispatch i prompts[i]`
when it succeeded and the degraded placeholder (failure-describing content,
zero tokens, `from_cache = false`) when it failed terminally; other
positions are unaffected by a failure at `i`. -/
theorem batch_order_preservation
    (dispatch : Nat → String → Except String LLMResponse)
    (prompts : List String) (model : String) :
    (batchCallLLMAsync dispatch prompts model).length = prompts.length ∧
    ∀ i p, prompts[i]? = some p →
      (∀ resp, dispatch i p = Except.ok resp →
        (batchCallLLMAsync dispatch prompts model)[i]? = some resp) ∧
      (∀ e, dispatch i p = Except.error e →
        (batchCallLLMAsync dispatch prompts model)[i]? =
          some (degradedPlaceholder model e) ∧
        (degradedPlaceholder model e).tokens_used = 0 ∧
        (degradedPlaceholder model e).from_cache = false ∧
        (degradedPlaceholder model e).content = "处理失败: " ++ e) := by
  unfold batchCallLLMAsync
  by_cases hemp : prompts.isEmpty
  · rw [if_pos hemp]
    rw [List.isEmpty_iff] at hemp
    subst hemp
    refine ⟨rfl, ?_⟩
    intro i p hp
    simp at hp
  · rw [if_neg hemp]
    refine ⟨by simp [List.enum_eq_enumFrom], ?_⟩
    intro i p hp
    have henum : prompts.enum[i]? = some (i, p) := by
      rw [List.enum_eq_enumFrom, List.getElem?_enumFrom, hp]
      simp
    have hmap := List.getElem?_map
      (fun ip : Nat × String =>
        match dispatch ip.1 ip.2 with
        | Except.ok resp => resp
        | Except.error e => degradedPlaceholder model e)
      prompts.enum i
    rw [henum] at hmap
    refine ⟨?_, ?_⟩
    · intro resp hok
      rw [hmap]
      simp only [Option.map_some', hok]
    · intro e herr
      refine ⟨?_, rfl, rfl, rfl⟩
      rw [hmap]
      simp only [Option.map_some', herr]

/-- C7 witness: a three-prompt batch whose middle dispatch fails. -/
theorem batch_order_preservation_witness :
    (batchCallLLMAsync batchDispatch0 ["p1", "p2", "p3"] "m").length = 3 ∧
    (batchCallLLMAsync batchDispatch0 ["p1", "p2", "p3"] "m")[1]? =
      some (degradedPlaceholder "m" "boom") := by
  have h := batch_order_preservation batchDispatch0 ["p1", "p2", "p3"] "m"
  exact ⟨h.1, ((h.2 1 "p2" rfl).2 "boom" rfl).1⟩

/-! ### Cache helper lemmas -/

/-- The fold inside `minEntry` returns the seed or a list element. -/
theorem minEntry_foldl_mem (l : Cache) :
    ∀ best, l.foldl (fun best f => if f.2.2 < best.2.2 then f else best) best
      ∈ best :: l := by
  induction l with
  | nil => intro best; exact List.mem_cons_self best []
  | cons f fs ih =>
    intro best
    simp only [List.foldl_cons]
    have h := ih (if f.2.2 < best.2.2 then f else best)
    rw [List.mem_cons] at h
    rcases h with h | h
    · rw [h]
      split
      · exact List.mem_cons_of_mem _ (List.mem_cons_self f fs)
      · exact List.mem_cons_self best (f :: fs)
    · exact List.mem_cons_of_mem _ (List.mem_cons_of_mem _ h)

/-- The minimal entry belongs to the dict. -/
theorem minEntry_mem (c : Cache) (e : String × CacheEntry)
    (h : minEntry c = some e) : e ∈ c := by
  cases c with
  | nil => cases h
  | cons x xs =>
    have hm := minEntry_foldl_mem xs x
    simp only [minEntry] at h
    rw [Option.some.injEq] at h
    rw [h] at hm
    exact hm

/-- The oldest key is the key of some entry of the dict. -/
theorem oldestKey_mem (c : Cache) (k0 : String) (h : oldestKey c = some k0) :
    ∃ e ∈ c, e.1 = k0 := by
  unfold oldestKey at h
  cases hm : minEntry c with
  | none => rw [hm] at h; cases h
  | some e =>
    rw [hm] at h
    rw [Option.map_some', Option.some.injEq] at h
    exact ⟨e, minEntry_mem c e hm, h⟩

/-- The fold inside `minEntry` keeps a seed that no element beats. -/
theorem minEntry_foldl_fixed (l : Cache) :
    ∀ best, (∀ f ∈ l, ¬ f.2.2 < best.2.2) →
      l.foldl (fun best f => if f.2.2 < best.2.2 then f else best) best
        = best := by
  induction l with
  | nil => intro best _; rfl
  | cons f fs ih =>
    intro best h
    simp only [List.foldl_cons]
    rw [if_neg (h f (List.mem_cons_self f fs))]
    exact ih best (fun g hg => h g (List.mem_cons_of_mem f hg))

/-- When every later entry is strictly younger, the head holds the minimal
insertion timestamp, so CPython `min` picks the head key. -/
theorem oldestKey_sorted_cons (e : String × CacheEntry) (es : Cache)
    (hsort : ∀ f ∈ es, e.2.2 < f.2.2) :
    oldestKey (e :: es) = some e.1 := by
  simp only [oldestKey, minEntry]
  rw [minEntry_foldl_fixed es e (fun f hf => not_lt.mpr (le_of_lt (hsort f hf)))]
  rfl

/-- Inserting a fresh key appends at the end (CPython dict semantics). -/
theorem dictInsert_fresh (d : Cache) (k : String) (v : CacheEntry)
    (h : ∀ e ∈ d, e.1 ≠ k) : dictInsert d k v = d ++ [(k, v)] := by
  have hany : d.any (fun p => p.1 == k) = false := by
    rw [List.any_eq_false]
    intro p hp
    simpa using h p hp
  simp [dictInsert, hany]

/-- `dictInsert` grows the dict by at most one entry. -/
theorem dictInsert_length_le (d : Cache) (k : String) (v : CacheEntry) :
    (dictInsert d k v).length ≤ d.length + 1 := by
  unfold dictInsert
  split
  · simp
  · simp

/-- A successful `_cache_response` never leaves more than `cache_size`
entries, for a positive capacity and a store within capacity. -/
theorem cacheResponse_length (cache_size : Nat) (c : Cache) (key : String)
    (resp : LLMResponse) (now : ℚ)
    (h : c.length ≤ cache_size) (c2 : Cache)
    (hok : cacheResponse cache_size c key resp now = Except.ok c2) :
    c2.length ≤ cache_size := by
  unfold cacheResponse at hok
  split at hok
  · rename_i hfull
    cases hm : oldestKey c with
    | none => rw [hm] at hok; cases hok
    | some k0 =>
      rw [hm] at hok
      rw [Except.ok.injEq] at hok
      subst hok
      obtain ⟨e, he, hek⟩ := oldestKey_mem c k0 hm
      have herase : (dictErase c k0).length = c.length - 1 := by
        unfold dictErase
        exact List.length_eraseP_of_mem he (by simpa using hek)
      have hA := dictInsert_length_le (dictErase c k0) key (resp, now)
      have hC : 1 ≤ c.length := List.length_pos.mpr (List.ne_nil_of_mem he)
      calc (dictInsert (dictErase c k0) key (resp, now)).length
          ≤ (dictErase c k0).length + 1 := hA
        _ = (c.length - 1) + 1 := by rw [herase]
        _ = c.length := Nat.sub_add_cancel hC
        _ ≤ cache_size := h
  · rename_i hroom
    rw [Except.ok.injEq] at hok
    subst hok
    have := dictInsert_length_le c key (resp, now)
    omega

/-- The cache left behind by `_get_cached_response` is never longer than the
one it started from. -/
theorem lookupCache_snd_length (cache_ttl : ℚ) (c : Cache) (key : String)
    (now : ℚ) : (lookupCache cache_ttl c key now).2.length ≤ c.length := by
  unfold lookupCache
  cases dictFind c key with
  | none => exact le_refl _
  | some e =>
    cases e with
    | mk resp ts =>
      dsimp only
      split
      · exact le_refl _
      · exact List.length_eraseP_le c

/-- One cache operation keeps the store within a positive capacity. -/
theorem runCacheOp_length (capacity : Nat) (cache_ttl : ℚ) (c : Cache)
    (op : CacheOp) (h : c.length ≤ capacity) :
    (runCacheOp capacity cache_ttl c op).length ≤ capacity := by
  cases op with
  | insert key resp now =>
    simp only [runCacheOp]
    cases hc : cacheResponse capacity c key resp now with
    | ok c2 => exact cacheResponse_length capacity c key resp now h c2 hc
    | error e => exact h
  | lookup key now =>
    simp only [runCacheOp]
    exact le_trans (lookupCache_snd_length cache_ttl c key now) h
  | clear => simp [runCacheOp]

/-- Any operation sequence keeps the store within a positive capacity. -/
theorem runCacheOps_length (capacity : Nat) (cache_ttl : ℚ) :
    ∀ (ops : List CacheOp) (c : Cache), c.length ≤ capacity →
      (runCacheOps capacity cache_ttl c ops).length ≤ capacity := by
  intro ops
  induction ops with
  | nil => intro c h; exact h
  | cons op rest ih =>
    intro c h
    rw [runCacheOps, List.foldl_cons]
    exact ih _ (runCacheOp_length capacity cache_ttl c op h)

/-- A hit returned by the cache-level lookup is fresh and is flagged as
served from cache. -/
theorem lookupCache_some (cache_ttl : ℚ) (c : Cache) (key : String) (now : ℚ)
    (resp : LLMResponse) (c2 : Cache)
    (h : lookupCache cache_ttl c key now = (some resp, c2)) :
    resp.from_cache = true ∧
    ∃ r ts, dictFind c key = some (r, ts) ∧ now - ts < cache_ttl := by
  unfold lookupCache at h
  cases hf : dictFind c key with
  | none =>
    rw [hf] at h
    exact absurd (congrArg Prod.fst h) (by simp)
  | some e =>
    cases e with
    | mk r ts =>
      rw [hf] at h
      dsimp only at h
      split at h
      · rename_i hfresh
        rw [Prod.mk.injEq, Option.some.injEq] at h
        rw [← h.1]
        exact ⟨rfl, r, ts, rfl, hfresh⟩
      · exact absurd (congrArg Prod.fst h) (by simp)

/-- An expired entry is treated as absent and deleted by the lookup. -/
theorem lookupCache_expired (cache_ttl : ℚ) (c : Cache) (key : String)
    (now : ℚ) (r : LLMResponse) (ts : ℚ)
    (hf : dictFind c key = some (r, ts)) (hexp : cache_ttl ≤ now - ts) :
    lookupCache cache_ttl c key now = (none, dictErase c key) := by
  unfold lookupCache
  rw [hf]
  dsimp only
  rw [if_neg (not_lt.mpr hexp)]

/-- Inserting fresh, pairwise-distinct keys into a store with enough room
appends them in order. -/
theorem runCacheOps_insert_fresh (capacity : Nat) (cache_ttl : ℚ) :
    ∀ (items : List (String × CacheEntry)) (c : Cache),
      items.Pairwise (fun a b => a.1 ≠ b.1) →
      (∀ f ∈ items, ∀ g ∈ c, g.1 ≠ f.1) →
      c.length + items.length ≤ capacity →
      runCacheOps capacity cache_ttl c (insertOps items) = c ++ items := by
  intro items
  induction items with
  | nil => intro c _ _ _; simp [runCacheOps, insertOps]
  | cons e rest ih =>
    intro c hpw hfresh hlen
    rw [List.pairwise_cons] at hpw
    have hlt : c.length < capacity := by
      simp only [List.length_cons] at hlen
      omega
    have hstep : runCacheOp capacity cache_ttl c (CacheOp.insert e.1 e.2.1 e.2.2)
        = c ++ [e] := by
      simp only [runCacheOp, cacheResponse]
      rw [if_neg (not_le.mpr hlt)]
      dsimp only
      rw [dictInsert_fresh c e.1 (e.2.1, e.2.2)
        (fun g hg => hfresh e (List.mem_cons_self e rest) g hg)]
    rw [insertOps, List.map_cons, runCacheOps, List.foldl_cons]
    rw [show List.foldl (runCacheOp capacity cache_ttl)
      (runCacheOp capacity cache_ttl c (CacheOp.insert e.1 e.2.1 e.2.2))
      (List.map (fun e => CacheOp.insert e.1 e.2.1 e.2.2) rest) =
      runCacheOps capacity cache_ttl
        (runCacheOp capacity cache_ttl c (CacheOp.insert e.1 e.2.1 e.2.2))
        (insertOps rest) from rfl]
    rw [hstep]
    rw [ih (c ++ [e]) hpw.2 ?_ ?_]
    · simp
    · intro f hf g hg
      rw [List.mem_append] at hg
      rcases hg with hg | hg
      · exact hfresh f (List.mem_cons_of_mem e hf) g hg
      · rw [List.mem_singleton] at hg
        rw [hg]
        exact hpw.1 f hf
    · simp only [List.length_append, List.length_singleton]
      simp only [List.length_cons] at hlen
      omega

/-- `_cache_response` on a store at (or beyond) capacity with a fresh key:
the entry under the oldest key is evicted and the new entry appended. -/
theorem cacheResponse_at_capacity (capacity : Nat) (c : Cache) (key : String)
    (resp : LLMResponse) (now : ℚ) (k0 : String)
    (hfull : capacity ≤ c.length)
    (hmin : oldestKey c = some k0)
    (hfresh : ∀ e ∈ c, e.1 ≠ key) :
    cacheResponse capacity c key resp now =
      Except.ok (dictErase c k0 ++ [(key, (resp, now))]) := by
  unfold cacheResponse
  rw [if_pos hfull, hmin]
  dsimp only
  rw [dictInsert_fresh (dictErase c k0) key (resp, now)
    (fun e he => hfresh e (List.mem_of_mem_eraseP he))]

/-- Inserting `capacity + 1` distinct keys at strictly increasing times into
an empty store leaves exactly the last `capacity` of them: the first-inserted
entry is the one evicted. -/
theorem runCacheOps_capacity_overflow (capacity : Nat) (cache_ttl : ℚ)
    (items : List (String × CacheEntry))
    (hcap : 1 ≤ capacity)
    (hlen : items.length = capacity + 1)
    (hkeys : items.Pairwise (fun a b => a.1 ≠ b.1))
    (htimes : items.Pairwise (fun a b => a.2.2 < b.2.2)) :
    runCacheOps capacity cache_ttl [] (insertOps items) = items.tail := by
  rcases List.eq_nil_or_concat items with hnil | ⟨ys, z, hysz⟩
  · subst hnil; simp at hlen
  · rw [List.concat_eq_append] at hysz
    subst hysz
    have hyslen : ys.length = capacity := by
      simp only [List.length_append, List.length_singleton] at hlen
      omega
    rw [List.pairwise_append] at hkeys htimes
    rw [insertOps, List.map_append, runCacheOps, List.foldl_append]
    have hys : List.foldl (runCacheOp capacity cache_ttl) []
        (List.map (fun e => CacheOp.insert e.1 e.2.1 e.2.2) ys) = ys := by
      have h := runCacheOps_insert_fresh capacity cache_ttl ys []
        hkeys.1 (by intro f _ g hg; cases hg) (by simp [hyslen])
      simpa [runCacheOps, insertOps] using h
    rw [hys]
    cases ys with
    | nil => simp at hyslen; omega
    | cons y ys2 =>
      have hmin : oldestKey (y :: ys2) = some y.1 :=
        oldestKey_sorted_cons y ys2
          (fun f hf => (List.pairwise_cons.mp htimes.1).1 f hf)
      have hfresh : ∀ e ∈ y :: ys2, e.1 ≠ z.1 := by
        intro e he
        exact hkeys.2.2 e he z (List.mem_singleton_self z)
      simp only [List.map_singleton, List.foldl_cons, List.foldl_nil]
      rw [show runCacheOp capacity cache_ttl (y :: ys2)
          (CacheOp.insert z.1 z.2.1 z.2.2) =
        match cacheResponse capacity (y :: ys2) z.1 z.2.1 z.2.2 with
        | Except.ok c2 => c2
        | Except.error _ => y :: ys2 from rfl]
      rw [cacheResponse_at_capacity capacity (y :: ys2) z.1 z.2.1 z.2.2 y.1
        (le_of_eq hyslen.symm) hmin hfresh]
      unfold dictErase
      rw [List.eraseP_cons_of_pos (by simp)]
      simp

/-- In a dict with pairwise-distinct keys, looking up the key of a stored
entry finds exactly that entry. -/
theorem dictFind_of_mem_unique (c : Cache)
    (hkeys : c.Pairwise (fun a b => a.1 ≠ b.1)) (e : String × CacheEntry)
    (he : e ∈ c) : dictFind c e.1 = some e.2 := by
  induction c with
  | nil => cases he
  | cons x xs ih =>
    rw [List.pairwise_cons] at hkeys
    rw [List.mem_cons] at he
    rcases he with he | he
    · subst he
      simp [dictFind, List.find?_cons]
    · have hne : (x.1 == e.1) = false := by
        simpa using hkeys.1 e he
      simp only [dictFind, List.find?_cons, hne]
      exact ih hkeys.2 he

/-- C8 (status: confirmed). With a positive capacity, (a) no sequence of
insert/lookup/clear operations ever grows the store beyond the capacity;
(b) a lookup only returns an entry that is present and strictly younger than
the TTL, flagged `from_cache = true`; (c) an entry at least TTL old is
treated as absent by lookup and removed; (d) inserting `capacity + 1`
distinct keys at strictly increasing times into an empty store leaves
exactly `capacity` entries, and the first-inserted (oldest-timestamp) entry
is the one evicted. -/
theorem cache_capacity_and_ttl_invariants (capacity : Nat) (cache_ttl : ℚ)
    (c0 : Cache) (ops : List CacheOp)
    (hcap : 1 ≤ capacity) (hlen : c0.length ≤ capacity) :
    (runCacheOps capacity cache_ttl c0 ops).length ≤ capacity ∧
    (∀ key now resp c2, lookupCache cache_ttl c0 key now = (some resp, c2) →
      resp.from_cache = true ∧
      ∃ r ts, dictFind c0 key = some (r, ts) ∧ now - ts < cache_ttl) ∧
    (∀ key now r ts, dictFind c0 key = some (r, ts) → cache_ttl ≤ now - ts →
      lookupCache cache_ttl c0 key now = (none, dictErase c0 key)) ∧
    (∀ items : List (String × CacheEntry),
      items.length = capacity + 1 →
      items.Pairwise (fun a b => a.1 ≠ b.1) →
      items.Pairwise (fun a b => a.2.2 < b.2.2) →
      runCacheOps capacity cache_ttl [] (insertOps items) = items.tail ∧
      (runCacheOps capacity cache_ttl [] (insertOps items)).length
        = capacity) := by
  refine ⟨runCacheOps_length capacity cache_ttl ops c0 hlen, ?_, ?_, ?_⟩
  · intro key now resp c2 h
    exact lookupCache_some cache_ttl c0 key now resp c2 h
  · intro key now r ts hf hexp
    exact lookupCache_expired cache_ttl c0 key now r ts hf hexp
  · intro items hlen2 hk ht
    have h := runCacheOps_capacity_overflow capacity cache_ttl items hcap
      hlen2 hk ht
    refine ⟨h, ?_⟩
    rw [h, List.length_tail]
    omega

/-- C8 witness: capacity 3, four distinct keys inserted at increasing
times. -/
theorem cache_capacity_and_ttl_invariants_witness :
    (runCacheOps 3 3600 [] (insertOps itemsFix)).length ≤ 3 ∧
    runCacheOps 3 3600 [] (insertOps itemsFix) = itemsFix.tail := by
  have h := cache_capacity_and_ttl_invariants 3 3600 [] (insertOps itemsFix)
    (by norm_num) (by simp)
  refine ⟨h.1, ?_⟩
  exact (h.2.2.2 itemsFix rfl (by with_unfolding_all decide)
    (by with_unfolding_all decide)).1

/-- C10 (status: confirmed). When the store is at capacity, insert evicts
exactly the entry under the minimal-timestamp key `k0` — regardless of the
TTL status of any entry (insert never consults the TTL): the store size is
unchanged, the new entry is present, and every other entry (expired or not)
survives. A TTL-expired entry remains a stored, size-counted entry until a
lookup of its own key removes it or the cache is cleared: lookups of other
keys leave it in place, `get_cache_size` counts every stored entry, and only
a lookup of the expired entry's own key (returning absent) or `clear_cache`
removes it. -/
theorem insert_evicts_min_ignoring_ttl (capacity : Nat) (cache_ttl now : ℚ)
    (c : Cache) (key k0 : String) (resp : LLMResponse)
    (hfull : capacity ≤ c.length)
    (hmin : oldestKey c = some k0)
    (hfresh : ∀ e ∈ c, e.1 ≠ key)
    (hkeys : c.Pairwise (fun a b => a.1 ≠ b.1)) :
    cacheResponse capacity c key resp now =
      Except.ok (dictErase c k0 ++ [(key, (resp, now))]) ∧
    (dictErase c k0 ++ [(key, (resp, now))]).length = c.length ∧
    (key, (resp, now)) ∈ dictErase c k0 ++ [(key, (resp, now))] ∧
    (∀ e ∈ c, e.1 ≠ k0 → e ∈ dictErase c k0 ++ [(key, (resp, now))]) ∧
    (∀ j now2 e, e ∈ c → e.1 ≠ j → e ∈ (lookupCache cache_ttl c j now2).2) ∧
    (∀ e ∈ c, cache_ttl ≤ now - e.2.2 →
      (lookupCache cache_ttl c e.1 now).1 = none ∧
      (lookupCache cache_ttl c e.1 now).2 = dictErase c e.1) ∧
    (∀ st : PoolState, st.cache = c →
      getCacheSize st = c.length ∧ (clearCache st).cache = []) := by
  obtain ⟨e0, he0, he0k⟩ := oldestKey_mem c k0 hmin
  have herase : (dictErase c k0).length = c.length - 1 := by
    unfold dictErase
    exact List.length_eraseP_of_mem he0 (by simpa using he0k)
  have hC : 1 ≤ c.length := List.length_pos.mpr (List.ne_nil_of_mem he0)
  refine ⟨cacheResponse_at_capacity capacity c key resp now k0 hfull hmin
    hfresh, ?_, ?_, ?_, ?_, ?_, ?_⟩
  · rw [List.length_append, herase, List.length_singleton]
    exact Nat.sub_add_cancel hC
  · exact List.mem_append_right _ (List.mem_singleton_self _)
  · intro e he hne
    refine List.mem_append_left _ ?_
    exact (List.mem_eraseP_of_neg (by simpa using hne)).mpr he
  · intro j now2 e he hne
    unfold lookupCache
    cases dictFind c j with
    | none => exact he
    | some entry =>
      cases entry with
      | mk r ts =>
        dsimp only
        split
        · exact he
        · exact (List.mem_eraseP_of_neg (by simpa using hne)).mpr he
  · intro e he hexp
    have hfind : dictFind c e.1 = some e.2 := dictFind_of_mem_unique c hkeys e he
    have hlk := lookupCache_expired cache_ttl c e.1 now e.2.1 e.2.2 hfind hexp
    exact ⟨by rw [hlk], by rw [hlk]⟩
  · intro st hst
    constructor
    · rw [getCacheSize, hst]
    · rfl

/-- C10 witness: capacity 2, both stored entries expired (TTL 5, age ≥ 99),
inserting a fresh key evicts only the oldest entry, and only a lookup of an
expired entry's own key removes it. -/
theorem insert_evicts_min_ignoring_ttl_witness :
    cacheResponse 2 cacheFix "z" respX 100 =
      Except.ok (dictErase cacheFix "x" ++ [("z", (respX, 100))]) ∧
    (dictErase cacheFix "x" ++ [("z", (respX, 100))]).length
      = cacheFix.length ∧
    (lookupCache 5 cacheFix "x" 100).1 = none := by
  have h := insert_evicts_min_ignoring_ttl 2 5 100 cacheFix "z" "x" respX
    (by with_unfolding_all decide) (by with_unfolding_all decide)
    (by with_unfolding_all decide) (by with_unfolding_all decide)
  refine ⟨h.1, h.2.1, ?_⟩
  exact (h.2.2.2.2.2.1 ("x", (respX, 0))
    (by with_unfolding_all decide) (by with_unfolding_all decide)).1

end AsyncLLMPool
